import Mathlib

/-!
Shallow embedding of `src/arbitrage_engine/core/exchange_manager.py`
(class `ExchangeManager`).

The Python module is a sequential data-access shim over the ccxt library:
every public method is a `for` loop over the `self.exchanges` dict, calling
one ccxt function per exchange and copying fields into a result dict, with
a single `try`/`except` wrapped around the *whole* loop that logs and
re-raises.

Modelling choices:
- Python exceptions are modelled with `Except PyErr`.
- A ccxt exchange object is an oracle (`Exchange`): its fetch methods are
  arbitrary functions returning either a payload or an error, standing for
  the black-box network calls.  `ticker_time` is an environment cost model:
  the wall-clock duration of one `fetch_ticker` call, used to reason about
  the sequential (blocking, timeout-free) execution of the loop.
- `self.exchanges` (a Python dict, insertion ordered) is an association
  list `List (String × Exchange)`; dict assignment `d[k] = v` is
  `dictInsert` (replace in place if the key exists, else append).
- Each method additionally returns the list of log events it emitted and
  the trace of connector calls it dispatched, making observable which
  connectors were invoked and with which arguments.
- Machine floats are modelled as `Rat` (no rounding is relevant to any
  claim; all arithmetic in the source is a single subtraction/multiply).
-/

/-- Python exception values, as distinguished by the source's handlers:
`ccxt.BaseError` (the only class `get_price_data` catches), `TypeError`
(e.g. `float(None)`), `ValueError` (e.g. `float` of a non-numeric string),
`KeyError` (missing dict key), and anything else. -/
inductive PyErr where
  | ccxtBase (msg : String)
  | typeError (msg : String)
  | valueError (msg : String)
  | keyError (key : String)
  | other (msg : String)
deriving DecidableEq, Repr

/-- Whether an exception is a `ccxt.BaseError` (matched by the
`except ccxt.BaseError` clause in `get_price_data`). -/
def PyErr.isCcxtBase : PyErr → Bool
  | .ccxtBase _ => true
  | _ => false

/-- A Python value appearing in a ticker field, as relevant to `float(x)`:
a number, a numeric string, a non-numeric string, or `None`. -/
inductive PyNum where
  | num (x : Rat)
  | numStr (x : Rat)
  | badStr (s : String)
  | pynone
deriving DecidableEq, Repr

/-- Python `float(x)`: succeeds on numbers and numeric strings, raises
`TypeError` on `None`, `ValueError` on a non-numeric string. -/
def pyFloat : PyNum → Except PyErr Rat
  | .num x => .ok x
  | .numStr x => .ok x
  | .badStr s => .error (.valueError s)
  | .pynone => .error (.typeError "float of NoneType")

/-- One raw OHLCV row as returned by ccxt `fetch_ohlcv`:
`[timestamp, open, high, low, close, volume]` (six entries; the source
indexes positions 0..4 of it). -/
structure OhlcvRow where
  ts : Rat
  opn : Rat
  hi : Rat
  lo : Rat
  cls : Rat
  vol : Rat
deriving DecidableEq, Repr

/-- Python indexing `o[i]` on a raw OHLCV row, in ccxt's element order.
(The source only uses indices 0..4.) -/
def rowGet (o : OhlcvRow) : Nat → Rat
  | 0 => o.ts
  | 1 => o.opn
  | 2 => o.hi
  | 3 => o.lo
  | 4 => o.cls
  | _ => o.vol

/-- The per-candle dict the source builds:
`{'open': o[0], 'high': o[1], 'low': o[2], 'close': o[3], 'volume': o[4]}`.
(Faithfully index-for-index: the source reads `o[0]` as `open`, which in a
ccxt row is actually the timestamp.) -/
structure Candle where
  copen : Rat
  chigh : Rat
  clow : Rat
  cclose : Rat
  cvolume : Rat
deriving DecidableEq, Repr

def candleOfRow (o : OhlcvRow) : Candle :=
  ⟨rowGet o 0, rowGet o 1, rowGet o 2, rowGet o 3, rowGet o 4⟩

/-- The dict comprehension
`{timestamp: {...} for timestamp, o in enumerate(ohlcv)}` of
`get_price_data` and `get_historical_prices`: keys are the `enumerate`
positions `0..n-1`, not the rows' own timestamps. -/
def candleDict (rows : List OhlcvRow) : List (Nat × Candle) :=
  rows.enum.map (fun p => (p.1, candleOfRow p.2))

/-- The dict comprehension
`{timestamp: o[4] for timestamp, o in enumerate(ohlcv)}` of
`get_volume_data`. -/
def volumeDict (rows : List OhlcvRow) : List (Nat × Rat) :=
  rows.enum.map (fun p => (p.1, rowGet p.2 4))

/-- The fields of a ccxt ticker the source reads: `ticker['bid']` and
`ticker['last']`. -/
structure Ticker where
  bid : PyNum
  last : PyNum
deriving DecidableEq, Repr

/-- A raw ccxt order book response; the source reads only `bids` and
`asks` (lists of `[price, amount]` levels). -/
structure OrderBookRaw where
  bids : List (Rat × Rat)
  asks : List (Rat × Rat)
  timestamp : Option Rat
deriving DecidableEq, Repr

/-- The per-exchange dict `get_market_depth` builds:
`{'bids': order_book['bids'], 'asks': order_book['asks']}`. -/
structure OrderBookOut where
  bids : List (Rat × Rat)
  asks : List (Rat × Rat)
deriving DecidableEq, Repr

/-- One dispatched connector call, recorded with its arguments. -/
inductive FetchCall where
  | ohlcv (exchange : String) (symbol : String) (timeframe : String) (since : Option Rat)
  | ticker (exchange : String) (symbol : String)
  | orderBook (exchange : String) (symbol : String)
deriving DecidableEq, Repr

/-- One `logger.error` event emitted by the source. -/
inductive LogEvent where
  | unsupportedExchange (name : String)
  | initFailed (name : String) (e : PyErr)
  | fetchFailed (what : String) (e : PyErr)
deriving DecidableEq, Repr

/-- A ccxt exchange object, as an oracle over the black-box network calls
the source makes on it.  `ticker_time` is the environment's cost model:
the wall-clock duration, in milliseconds, one `fetch_ticker` call takes to
complete. -/
structure Exchange where
  load_markets : Except PyErr Unit
  fetch_ohlcv : String → String → Option Rat → Except PyErr (List OhlcvRow)
  fetch_ticker : String → Except PyErr Ticker
  fetch_order_book : String → Except PyErr OrderBookRaw
  ticker_time : String → Rat

/-- Python dict assignment `d[k] = v` on an insertion-ordered assoc list:
replace in place if `k` is present, else append at the end. -/
def dictInsert {α : Type} : List (String × α) → String → α → List (String × α)
  | [], k, v => [(k, v)]
  | p :: d, k, v => if p.1 = k then (k, v) :: d else p :: dictInsert d k v

/-- Python dict read `d[k]`: raises `KeyError` when absent. -/
def dictGetS (d : List (String × String)) (k : String) : Except PyErr String :=
  match d.lookup k with
  | some v => Except.ok v
  | Option.none => Except.error (.keyError k)

/-- Result of one method run: the Python return-or-raise outcome, the log
events emitted, and the trace of connector calls dispatched. -/
structure RunOut (α : Type) where
  result : Except PyErr α
  log : List LogEvent
  calls : List FetchCall

/-- Loop body of `ExchangeManager.get_price_data(symbol, timeframe)`:
`for exchange_name, exchange in self.exchanges.items():` fetch OHLCV and
store `candleDict` under the exchange name.  The whole loop sits inside
`try ... except ccxt.BaseError: log; raise`, so the first failing exchange
aborts the request: a `ccxt.BaseError` is logged then re-raised, any other
exception propagates unlogged. -/
def get_price_data_go (symbol : String) (timeframe : String) :
    List (String × Exchange) → List (String × List (Nat × Candle)) → List FetchCall →
      RunOut (List (String × List (Nat × Candle)))
  | [], acc, calls => ⟨.ok acc, [], calls⟩
  | (name, ex) :: rest, acc, calls =>
    match ex.fetch_ohlcv symbol timeframe Option.none with
    | .error e =>
        ⟨.error e, if e.isCcxtBase then [.fetchFailed "OHLCV data" e] else [],
          calls ++ [.ohlcv name symbol timeframe Option.none]⟩
    | .ok rows =>
        get_price_data_go symbol timeframe rest (dictInsert acc name (candleDict rows))
          (calls ++ [.ohlcv name symbol timeframe Option.none])

/-- `ExchangeManager.get_price_data(symbol, timeframe='1h')`. -/
def get_price_data (exs : List (String × Exchange)) (symbol : String) (timeframe : String) :
    RunOut (List (String × List (Nat × Candle))) :=
  get_price_data_go symbol timeframe exs [] []

/-- Loop body of `ExchangeManager.get_current_price(symbol)`:
`price = exchange.fetch_ticker(symbol)['bid']; prices[name] = float(price)`
inside `try ... except Exception: log; raise` around the whole loop. -/
def get_current_price_go (symbol : String) :
    List (String × Exchange) → List (String × Rat) → List FetchCall →
      RunOut (List (String × Rat))
  | [], acc, calls => ⟨.ok acc, [], calls⟩
  | (name, ex) :: rest, acc, calls =>
    match ex.fetch_ticker symbol with
    | .error e =>
        ⟨.error e, [.fetchFailed "current price" e], calls ++ [.ticker name symbol]⟩
    | .ok t =>
      match pyFloat t.bid with
      | .error e =>
          ⟨.error e, [.fetchFailed "current price" e], calls ++ [.ticker name symbol]⟩
      | .ok p =>
          get_current_price_go symbol rest (dictInsert acc name p)
            (calls ++ [.ticker name symbol])

/-- `ExchangeManager.get_current_price(symbol)`. -/
def get_current_price (exs : List (String × Exchange)) (symbol : String) :
    RunOut (List (String × Rat)) :=
  get_current_price_go symbol exs [] []

/-- Sequential cost model for `get_current_price`: the loop is plain
blocking code with no timeout, so each `fetch_ticker` call that is reached
runs to completion and contributes its full duration; the request's
duration is the sum over the calls actually made. -/
def get_current_price_elapsed (symbol : String) : List (String × Exchange) → Rat
  | [] => 0
  | (_, ex) :: rest =>
    match ex.fetch_ticker symbol with
    | .error _ => ex.ticker_time symbol
    | .ok t =>
      match pyFloat t.bid with
      | .error _ => ex.ticker_time symbol
      | .ok _ => ex.ticker_time symbol + get_current_price_elapsed symbol rest

/-- Loop body of `ExchangeManager.get_volume_data(symbol)`: fetch OHLCV at
timeframe `'1h'` and store `volumeDict`, inside
`try ... except Exception: log; raise` around the whole loop. -/
def get_volume_data_go (symbol : String) :
    List (String × Exchange) → List (String × List (Nat × Rat)) → List FetchCall →
      RunOut (List (String × List (Nat × Rat)))
  | [], acc, calls => ⟨.ok acc, [], calls⟩
  | (name, ex) :: rest, acc, calls =>
    match ex.fetch_ohlcv symbol "1h" Option.none with
    | .error e =>
        ⟨.error e, [.fetchFailed "volume data" e],
          calls ++ [.ohlcv name symbol "1h" Option.none]⟩
    | .ok rows =>
        get_volume_data_go symbol rest (dictInsert acc name (volumeDict rows))
          (calls ++ [.ohlcv name symbol "1h" Option.none])

/-- `ExchangeManager.get_volume_data(symbol)`. -/
def get_volume_data (exs : List (String × Exchange)) (symbol : String) :
    RunOut (List (String × List (Nat × Rat))) :=
  get_volume_data_go symbol exs [] []

/-- Loop body of `ExchangeManager.get_market_depth(symbol)`: fetch the
order book and copy its `bids` and `asks` lists verbatim into the result,
inside `try ... except Exception: log; raise` around the whole loop. -/
def get_market_depth_go (symbol : String) :
    List (String × Exchange) → List (String × OrderBookOut) → List FetchCall →
      RunOut (List (String × OrderBookOut))
  | [], acc, calls => ⟨.ok acc, [], calls⟩
  | (name, ex) :: rest, acc, calls =>
    match ex.fetch_order_book symbol with
    | .error e =>
        ⟨.error e, [.fetchFailed "market depth" e], calls ++ [.orderBook name symbol]⟩
    | .ok ob =>
        get_market_depth_go symbol rest (dictInsert acc name ⟨ob.bids, ob.asks⟩)
          (calls ++ [.orderBook name symbol])

/-- `ExchangeManager.get_market_depth(symbol)`. -/
def get_market_depth (exs : List (String × Exchange)) (symbol : String) :
    RunOut (List (String × OrderBookOut)) :=
  get_market_depth_go symbol exs [] []

/-- The `since` value of `get_historical_prices`:
`end_time = datetime.now().timestamp()` (seconds) and
`start_time = end_time - (lookback * 60 * 60)`.  `now` is the environment's
current Unix time in seconds. -/
def histStartTime (now : Rat) (lookback : Nat) : Rat :=
  now - (lookback * 60 * 60 : Nat)

/-- Loop body of `ExchangeManager.get_historical_prices`: fetch OHLCV with
`since=start_time` (the same value for every exchange) and store
`candleDict`, inside `try ... except Exception: log; raise` around the
whole loop. -/
def get_historical_prices_go (symbol : String) (timeframe : String) (start_time : Rat) :
    List (String × Exchange) → List (String × List (Nat × Candle)) → List FetchCall →
      RunOut (List (String × List (Nat × Candle)))
  | [], acc, calls => ⟨.ok acc, [], calls⟩
  | (name, ex) :: rest, acc, calls =>
    match ex.fetch_ohlcv symbol timeframe (some start_time) with
    | .error e =>
        ⟨.error e, [.fetchFailed "historical prices" e],
          calls ++ [.ohlcv name symbol timeframe (some start_time)]⟩
    | .ok rows =>
        get_historical_prices_go symbol timeframe start_time rest
          (dictInsert acc name (candleDict rows))
          (calls ++ [.ohlcv name symbol timeframe (some start_time)])

/-- `ExchangeManager.get_historical_prices(symbol, timeframe='1h',
lookback=24)`, with the wall clock passed in as `now` (seconds). -/
def get_historical_prices (exs : List (String × Exchange)) (symbol : String)
    (timeframe : String) (lookback : Nat) (now : Rat) :
    RunOut (List (String × List (Nat × Candle))) :=
  get_historical_prices_go symbol timeframe (histStartTime now lookback) exs [] []

/-- Loop body of `ExchangeManager.get_last_traded_price(symbol)`:
`ticker = exchange.fetch_ticker(symbol); prices[name] = float(ticker['last'])`.
The source file is truncated inside this method's final `except` block (the
`logger.error` f-string is cut mid-literal and the lines after it are
absent).  Modelled from the spec: the missing tail is the log-then-re-raise
of the spec's error taxonomy ("per-exchange, network or API failure ...
logged"), which is also the uniform pattern of every other method in the
file. -/
def get_last_traded_price_go (symbol : String) :
    List (String × Exchange) → List (String × Rat) → List FetchCall →
      RunOut (List (String × Rat))
  | [], acc, calls => ⟨.ok acc, [], calls⟩
  | (name, ex) :: rest, acc, calls =>
    match ex.fetch_ticker symbol with
    | .error e =>
        ⟨.error e, [.fetchFailed "last traded price" e], calls ++ [.ticker name symbol]⟩
    | .ok t =>
      match pyFloat t.last with
      | .error e =>
          ⟨.error e, [.fetchFailed "last traded price" e], calls ++ [.ticker name symbol]⟩
      | .ok p =>
          get_last_traded_price_go symbol rest (dictInsert acc name p)
            (calls ++ [.ticker name symbol])

/-- `ExchangeManager.get_last_traded_price(symbol)`. -/
def get_last_traded_price (exs : List (String × Exchange)) (symbol : String) :
    RunOut (List (String × Rat)) :=
  get_last_traded_price_go symbol exs [] []

/-- The constructor's configuration: `config['exchanges']` (a list of
exchange names) and `config['api_keys']` (a dict of credential strings). -/
structure Config where
  exchanges : List String
  api_keys : List (String × String)

/-- The ccxt library as an oracle: constructing an exchange object from
credentials (`ccxt.binance({...})`, `ccxt.kucoin({...})`) may raise. -/
structure CcxtEnv where
  binance : String → String → Except PyErr Exchange
  kucoin : String → String → String → Except PyErr Exchange

/-- Outcome of one iteration of the loop in
`ExchangeManager._initialize_exchanges` for one configured name. -/
inductive InitOutcome where
  | registered (ex : Exchange)
  | unsupported
  | failed (e : PyErr)

/-- One iteration of `_initialize_exchanges` for one name: the
`if`/`elif`/`else` dispatch, credential dict reads, ccxt constructor and
`load_markets()`, with the surrounding per-iteration `try`/`except` that
turns any exception into a logged skip, and the `else` branch that logs an
unsupported name and continues. -/
def initOutcome (env : CcxtEnv) (cfg : Config) (name : String) : InitOutcome :=
  if name = "binance" then
    match (do
      let key ← dictGetS cfg.api_keys "binance_api_key"
      let sec ← dictGetS cfg.api_keys "binance_secret"
      let ex ← env.binance key sec
      let _ ← ex.load_markets
      pure ex : Except PyErr Exchange) with
    | .error e => .failed e
    | .ok ex => .registered ex
  else if name = "kucoin" then
    match (do
      let key ← dictGetS cfg.api_keys "kucoin_api_key"
      let sec ← dictGetS cfg.api_keys "kucoin_secret"
      let pw ← dictGetS cfg.api_keys "kucoin_password"
      let ex ← env.kucoin key sec pw
      let _ ← ex.load_markets
      pure ex : Except PyErr Exchange) with
    | .error e => .failed e
    | .ok ex => .registered ex
  else
    .unsupported

/-- The `for exchange_name in self.config['exchanges']:` loop of
`_initialize_exchanges`.  Where Python logs one of the two error messages
the loop emits, an `unsupportedExchange` or `initFailed` event is recorded;
a successful iteration assigns `self.exchanges[exchange_name] = exchange`.
The loop itself never raises: every exception is caught inside it. -/
def init_exchanges_go (env : CcxtEnv) (cfg : Config) :
    List String → List (String × Exchange) → List LogEvent →
      List (String × Exchange) × List LogEvent
  | [], acc, logs => (acc, logs)
  | name :: rest, acc, logs =>
    match initOutcome env cfg name with
    | .registered ex => init_exchanges_go env cfg rest (dictInsert acc name ex) logs
    | .unsupported => init_exchanges_go env cfg rest acc (logs ++ [.unsupportedExchange name])
    | .failed e => init_exchanges_go env cfg rest acc (logs ++ [.initFailed name e])

/-- `ExchangeManager._initialize_exchanges` (run by `__init__`): returns
the populated `self.exchanges` dict and the log.  Its total (exception-free)
return type records that the constructor never raises on a per-exchange
failure. -/
def init_exchanges (env : CcxtEnv) (cfg : Config) :
    List (String × Exchange) × List LogEvent :=
  init_exchanges_go env cfg cfg.exchanges [] []

/-- Descending-by-price check on a list of `[price, amount]` levels (the
spec's stated order-book convention for bids). -/
def sortedDescB : List (Rat × Rat) → Bool
  | [] => true
  | [_] => true
  | a :: b :: t => decide (b.1 ≤ a.1) && sortedDescB (b :: t)

/-- Ascending-by-price check on a list of `[price, amount]` levels (the
spec's stated order-book convention for asks). -/
def sortedAscB : List (Rat × Rat) → Bool
  | [] => true
  | [_] => true
  | a :: b :: t => decide (a.1 ≤ b.1) && sortedAscB (b :: t)

/-! Concrete connector behaviours used to evaluate the model on closed
inputs (witnesses and counterexamples). -/

def rowA : OhlcvRow := ⟨1000, 10, 20, 5, 15, 100⟩

def rowB : OhlcvRow := ⟨2000, 15, 25, 10, 20, 200⟩

/-- A healthy exchange: two candles, numeric ticker, sorted order book. -/
def exOkA : Exchange :=
  ⟨Except.ok (), fun _ _ _ => Except.ok [rowA, rowB],
   fun _ => Except.ok ⟨PyNum.num 50000, PyNum.num 50005⟩,
   fun _ => Except.ok ⟨[(3, 1), (2, 1)], [(4, 1), (5, 1)], Option.none⟩,
   fun _ => 100⟩

/-- A second healthy exchange with different data. -/
def exOkB : Exchange :=
  ⟨Except.ok (), fun _ _ _ => Except.ok [rowA],
   fun _ => Except.ok ⟨PyNum.num 50010, PyNum.num 50015⟩,
   fun _ => Except.ok ⟨[(9, 1), (8, 1)], [(10, 1), (11, 1)], Option.none⟩,
   fun _ => 100⟩

/-- An exchange whose every network call raises `ccxt.BaseError`. -/
def exNetFail : Exchange :=
  ⟨Except.ok (), fun _ _ _ => Except.error (.ccxtBase "NetworkError"),
   fun _ => Except.error (.ccxtBase "NetworkError"),
   fun _ => Except.error (.ccxtBase "NetworkError"),
   fun _ => 5000⟩

/-- An exchange on which every OHLCV request fails with the library's
bad-symbol error (the symbol is listed on no exchange). -/
def exNoSuchSymbol : Exchange :=
  ⟨Except.ok (), fun _ _ _ => Except.error (.ccxtBase "BadSymbol INVALID"),
   fun _ => Except.error (.ccxtBase "BadSymbol INVALID"),
   fun _ => Except.error (.ccxtBase "BadSymbol INVALID"),
   fun _ => 100⟩

/-- A slow but healthy exchange: `fetch_ticker` succeeds after 15 s (15000 ms; durations are in milliseconds). -/
def exSlowTicker : Exchange :=
  ⟨Except.ok (), fun _ _ _ => Except.ok [],
   fun _ => Except.ok ⟨PyNum.num 50000, PyNum.num 50000⟩,
   fun _ => Except.ok ⟨[], [], Option.none⟩,
   fun _ => 15000⟩

/-- A fast healthy exchange: `fetch_ticker` succeeds after 100 ms. -/
def exFastTicker : Exchange :=
  ⟨Except.ok (), fun _ _ _ => Except.ok [],
   fun _ => Except.ok ⟨PyNum.num 50010, PyNum.num 50010⟩,
   fun _ => Except.ok ⟨[], [], Option.none⟩,
   fun _ => 100⟩

/-- An exchange whose ticker has `bid = None` (numeric `last`). -/
def exNoneBid : Exchange :=
  ⟨Except.ok (), fun _ _ _ => Except.ok [],
   fun _ => Except.ok ⟨PyNum.pynone, PyNum.num 7⟩,
   fun _ => Except.ok ⟨[], [], Option.none⟩,
   fun _ => 100⟩

/-- An exchange whose ticker has a non-numeric `last` field. -/
def exBadLast : Exchange :=
  ⟨Except.ok (), fun _ _ _ => Except.ok [],
   fun _ => Except.ok ⟨PyNum.num 7, PyNum.badStr "n/a"⟩,
   fun _ => Except.ok ⟨[], [], Option.none⟩,
   fun _ => 100⟩

/-- An exchange whose raw order book comes back with ascending bids and
descending asks (the opposite of the standard convention). -/
def exUnsortedBook : Exchange :=
  ⟨Except.ok (), fun _ _ _ => Except.ok [],
   fun _ => Except.ok ⟨PyNum.num 1, PyNum.num 1⟩,
   fun _ => Except.ok ⟨[(1, 1), (2, 1)], [(5, 1), (4, 1)], Option.none⟩,
   fun _ => 100⟩

/-- An exchange whose OHLCV call succeeds but whose order-book call
raises: used to check the two fetch families independently. -/
def exBookFail : Exchange :=
  ⟨Except.ok (), fun _ _ _ => Except.ok [rowA],
   fun _ => Except.ok ⟨PyNum.num 1, PyNum.num 2⟩,
   fun _ => Except.error (.ccxtBase "NetworkError"),
   fun _ => 100⟩

/-- A ccxt library oracle whose two supported constructors succeed. -/
def envW : CcxtEnv := ⟨fun _ _ => Except.ok exOkA, fun _ _ _ => Except.ok exOkB⟩

/-- A ccxt library oracle whose binance constructor raises (bad
credentials) and whose kucoin constructor succeeds. -/
def envBadBinance : CcxtEnv :=
  ⟨fun _ _ => Except.error (.ccxtBase "AuthenticationError"), fun _ _ _ => Except.ok exOkB⟩

/-- A configuration naming one unsupported exchange between two supported
ones, with all credentials present. -/
def cfgW : Config :=
  ⟨["binance", "bogus", "kucoin"],
   [("binance_api_key", "k1"), ("binance_secret", "s1"), ("kucoin_api_key", "k2"),
    ("kucoin_secret", "s2"), ("kucoin_password", "p2")]⟩

/-! Helper lemmas about the dict model and the comprehension keys. -/

theorem dictInsert_absent {α : Type} :
    ∀ (d : List (String × α)) (k : String) (v : α),
      k ∉ d.map Prod.fst → dictInsert d k v = d ++ [(k, v)]
  | [], _, _, _ => rfl
  | p :: d, k, v, h => by
    have h1 : ¬ p.1 = k := fun hk => h (by simp [hk])
    have h2 : k ∉ d.map Prod.fst := fun hk => h (by simp [hk])
    simp only [dictInsert, if_neg h1, dictInsert_absent d k v h2, List.cons_append]

theorem mem_dictInsert {α : Type} (d : List (String × α)) (k : String) (v : α)
    (q : String × α) (h : q ∈ dictInsert d k v) : q ∈ d ∨ q = (k, v) := by
  induction d with
  | nil => simpa [dictInsert] using h
  | cons p d ih =>
    simp only [dictInsert] at h
    by_cases hpk : p.1 = k
    · rw [if_pos hpk] at h
      rcases List.mem_cons.mp h with h | h
      · exact Or.inr h
      · exact Or.inl (List.mem_cons_of_mem p h)
    · rw [if_neg hpk] at h
      rcases List.mem_cons.mp h with h | h
      · exact Or.inl (by simp [h])
      · rcases ih h with h2 | h2
        · exact Or.inl (List.mem_cons_of_mem p h2)
        · exact Or.inr h2

theorem candleDict_keys (rows : List OhlcvRow) :
    (candleDict rows).map Prod.fst = List.range rows.length := by
  simp only [candleDict, List.map_map]
  exact List.enum_map_fst rows

theorem candleDict_length (rows : List OhlcvRow) :
    (candleDict rows).length = rows.length := by
  simp [candleDict]

theorem volumeDict_keys (rows : List OhlcvRow) :
    (volumeDict rows).map Prod.fst = List.range rows.length := by
  simp only [volumeDict, List.map_map]
  exact List.enum_map_fst rows

theorem volumeDict_length (rows : List OhlcvRow) :
    (volumeDict rows).length = rows.length := by
  simp [volumeDict]

/-! Invariant-propagation lemmas: any property of the per-exchange payloads
holds of every entry of a successfully returned dict. -/

theorem get_price_data_go_ok_inv (s tf : String)
    (P : String × List (Nat × Candle) → Prop) (exs : List (String × Exchange)) :
    ∀ (acc : List (String × List (Nat × Candle))) (calls : List FetchCall)
      (m : List (String × List (Nat × Candle))),
      (∀ q ∈ exs, ∀ rows, q.2.fetch_ohlcv s tf Option.none = Except.ok rows →
        P (q.1, candleDict rows)) →
      (∀ p ∈ acc, P p) →
      (get_price_data_go s tf exs acc calls).result = Except.ok m →
      ∀ p ∈ m, P p := by
  induction exs with
  | nil =>
    intro acc calls m _ hacc hok p hp
    simp only [get_price_data_go, Except.ok.injEq] at hok
    subst hok
    exact hacc p hp
  | cons q rest ih =>
    intro acc calls m hexs hacc hok p hp
    obtain ⟨name, ex⟩ := q
    cases hfetch : ex.fetch_ohlcv s tf Option.none with
    | error e => simp [get_price_data_go, hfetch] at hok
    | ok rows =>
      simp only [get_price_data_go, hfetch] at hok
      exact ih (dictInsert acc name (candleDict rows)) _ m
        (fun q2 hq2 => hexs q2 (List.mem_cons_of_mem _ hq2))
        (fun q2 hq2 => by
          rcases mem_dictInsert _ _ _ _ hq2 with h | h
          · exact hacc q2 h
          · subst h
            exact hexs (name, ex) (List.mem_cons_self _ _) rows hfetch)
        hok p hp

theorem get_volume_data_go_ok_inv (s : String)
    (P : String × List (Nat × Rat) → Prop) (exs : List (String × Exchange)) :
    ∀ (acc : List (String × List (Nat × Rat))) (calls : List FetchCall)
      (m : List (String × List (Nat × Rat))),
      (∀ q ∈ exs, ∀ rows, q.2.fetch_ohlcv s "1h" Option.none = Except.ok rows →
        P (q.1, volumeDict rows)) →
      (∀ p ∈ acc, P p) →
      (get_volume_data_go s exs acc calls).result = Except.ok m →
      ∀ p ∈ m, P p := by
  induction exs with
  | nil =>
    intro acc calls m _ hacc hok p hp
    simp only [get_volume_data_go, Except.ok.injEq] at hok
    subst hok
    exact hacc p hp
  | cons q rest ih =>
    intro acc calls m hexs hacc hok p hp
    obtain ⟨name, ex⟩ := q
    cases hfetch : ex.fetch_ohlcv s "1h" Option.none with
    | error e => simp [get_volume_data_go, hfetch] at hok
    | ok rows =>
      simp only [get_volume_data_go, hfetch] at hok
      exact ih (dictInsert acc name (volumeDict rows)) _ m
        (fun q2 hq2 => hexs q2 (List.mem_cons_of_mem _ hq2))
        (fun q2 hq2 => by
          rcases mem_dictInsert _ _ _ _ hq2 with h | h
          · exact hacc q2 h
          · subst h
            exact hexs (name, ex) (List.mem_cons_self _ _) rows hfetch)
        hok p hp

theorem get_historical_prices_go_ok_inv (s tf : String) (st : Rat)
    (P : String × List (Nat × Candle) → Prop) (exs : List (String × Exchange)) :
    ∀ (acc : List (String × List (Nat × Candle))) (calls : List FetchCall)
      (m : List (String × List (Nat × Candle))),
      (∀ q ∈ exs, ∀ rows, q.2.fetch_ohlcv s tf (some st) = Except.ok rows →
        P (q.1, candleDict rows)) →
      (∀ p ∈ acc, P p) →
      (get_historical_prices_go s tf st exs acc calls).result = Except.ok m →
      ∀ p ∈ m, P p := by
  induction exs with
  | nil =>
    intro acc calls m _ hacc hok p hp
    simp only [get_historical_prices_go, Except.ok.injEq] at hok
    subst hok
    exact hacc p hp
  | cons q rest ih =>
    intro acc calls m hexs hacc hok p hp
    obtain ⟨name, ex⟩ := q
    cases hfetch : ex.fetch_ohlcv s tf (some st) with
    | error e => simp [get_historical_prices_go, hfetch] at hok
    | ok rows =>
      simp only [get_historical_prices_go, hfetch] at hok
      exact ih (dictInsert acc name (candleDict rows)) _ m
        (fun q2 hq2 => hexs q2 (List.mem_cons_of_mem _ hq2))
        (fun q2 hq2 => by
          rcases mem_dictInsert _ _ _ _ hq2 with h | h
          · exact hacc q2 h
          · subst h
            exact hexs (name, ex) (List.mem_cons_self _ _) rows hfetch)
        hok p hp

theorem get_market_depth_go_ok_inv (s : String)
    (P : String × OrderBookOut → Prop) (exs : List (String × Exchange)) :
    ∀ (acc : List (String × OrderBookOut)) (calls : List FetchCall)
      (m : List (String × OrderBookOut)),
      (∀ q ∈ exs, ∀ ob, q.2.fetch_order_book s = Except.ok ob →
        P (q.1, ⟨ob.bids, ob.asks⟩)) →
      (∀ p ∈ acc, P p) →
      (get_market_depth_go s exs acc calls).result = Except.ok m →
      ∀ p ∈ m, P p := by
  induction exs with
  | nil =>
    intro acc calls m _ hacc hok p hp
    simp only [get_market_depth_go, Except.ok.injEq] at hok
    subst hok
    exact hacc p hp
  | cons q rest ih =>
    intro acc calls m hexs hacc hok p hp
    obtain ⟨name, ex⟩ := q
    cases hfetch : ex.fetch_order_book s with
    | error e => simp [get_market_depth_go, hfetch] at hok
    | ok ob =>
      simp only [get_market_depth_go, hfetch] at hok
      exact ih (dictInsert acc name ⟨ob.bids, ob.asks⟩) _ m
        (fun q2 hq2 => hexs q2 (List.mem_cons_of_mem _ hq2))
        (fun q2 hq2 => by
          rcases mem_dictInsert _ _ _ _ hq2 with h | h
          · exact hacc q2 h
          · subst h
            exact hexs (name, ex) (List.mem_cons_self _ _) ob hfetch)
        hok p hp

/-! Key-set lemmas: a successfully returned dict has exactly the registered
exchange names as keys, in registration order. -/

theorem get_price_data_go_ok_keys (s tf : String) (exs : List (String × Exchange)) :
    ∀ (acc : List (String × List (Nat × Candle))) (calls : List FetchCall) (m : _),
      ((acc.map Prod.fst ++ exs.map Prod.fst).Nodup) →
      (get_price_data_go s tf exs acc calls).result = Except.ok m →
      m.map Prod.fst = acc.map Prod.fst ++ exs.map Prod.fst := by
  induction exs with
  | nil =>
    intro acc calls m _ hok
    simp only [get_price_data_go, Except.ok.injEq] at hok
    subst hok
    simp
  | cons q rest ih =>
    intro acc calls m hnd hok
    obtain ⟨name, ex⟩ := q
    cases hfetch : ex.fetch_ohlcv s tf Option.none with
    | error e => simp [get_price_data_go, hfetch] at hok
    | ok rows =>
      simp only [get_price_data_go, hfetch] at hok
      have hd := List.disjoint_of_nodup_append hnd
      have hnotin : name ∉ acc.map Prod.fst := fun hmem => hd hmem (by simp)
      rw [dictInsert_absent acc name (candleDict rows) hnotin] at hok
      have hnd2 :
          (((acc ++ [(name, candleDict rows)]).map Prod.fst) ++ rest.map Prod.fst).Nodup := by
        simpa [List.append_assoc] using hnd
      have h := ih (acc ++ [(name, candleDict rows)]) _ m hnd2 hok
      rw [h]
      simp [List.append_assoc]

theorem get_market_depth_go_ok_keys (s : String) (exs : List (String × Exchange)) :
    ∀ (acc : List (String × OrderBookOut)) (calls : List FetchCall) (m : _),
      ((acc.map Prod.fst ++ exs.map Prod.fst).Nodup) →
      (get_market_depth_go s exs acc calls).result = Except.ok m →
      m.map Prod.fst = acc.map Prod.fst ++ exs.map Prod.fst := by
  induction exs with
  | nil =>
    intro acc calls m _ hok
    simp only [get_market_depth_go, Except.ok.injEq] at hok
    subst hok
    simp
  | cons q rest ih =>
    intro acc calls m hnd hok
    obtain ⟨name, ex⟩ := q
    cases hfetch : ex.fetch_order_book s with
    | error e => simp [get_market_depth_go, hfetch] at hok
    | ok ob =>
      simp only [get_market_depth_go, hfetch] at hok
      have hd := List.disjoint_of_nodup_append hnd
      have hnotin : name ∉ acc.map Prod.fst := fun hmem => hd hmem (by simp)
      rw [dictInsert_absent acc name ⟨ob.bids, ob.asks⟩ hnotin] at hok
      have hnd2 :
          (((acc ++ [(name, (⟨ob.bids, ob.asks⟩ : OrderBookOut))]).map Prod.fst)
            ++ rest.map Prod.fst).Nodup := by
        simpa [List.append_assoc] using hnd
      have h := ih (acc ++ [(name, ⟨ob.bids, ob.asks⟩)]) _ m hnd2 hok
      rw [h]
      simp [List.append_assoc]

theorem get_current_price_go_ok_keys (s : String) (exs : List (String × Exchange)) :
    ∀ (acc : List (String × Rat)) (calls : List FetchCall) (m : _),
      ((acc.map Prod.fst ++ exs.map Prod.fst).Nodup) →
      (get_current_price_go s exs acc calls).result = Except.ok m →
      m.map Prod.fst = acc.map Prod.fst ++ exs.map Prod.fst := by
  induction exs with
  | nil =>
    intro acc calls m _ hok
    simp only [get_current_price_go, Except.ok.injEq] at hok
    subst hok
    simp
  | cons q rest ih =>
    intro acc calls m hnd hok
    obtain ⟨name, ex⟩ := q
    cases hfetch : ex.fetch_ticker s with
    | error e => simp [get_current_price_go, hfetch] at hok
    | ok t =>
      cases hconv : pyFloat t.bid with
      | error e => simp [get_current_price_go, hfetch, hconv] at hok
      | ok r =>
        simp only [get_current_price_go, hfetch, hconv] at hok
        have hd := List.disjoint_of_nodup_append hnd
        have hnotin : name ∉ acc.map Prod.fst := fun hmem => hd hmem (by simp)
        rw [dictInsert_absent acc name r hnotin] at hok
        have hnd2 :
            (((acc ++ [(name, r)]).map Prod.fst) ++ rest.map Prod.fst).Nodup := by
          simpa [List.append_assoc] using hnd
        have h := ih (acc ++ [(name, r)]) _ m hnd2 hok
        rw [h]
        simp [List.append_assoc]

/-- C4 counterexample: with no exchanges registered, every fetch operation
returns normally (an empty dict) instead of raising a structural error: the
loops simply iterate zero times and the `return` is reached. -/
theorem C4_counterexample :
    (get_price_data [] "BTC/USDT" "1h").result = Except.ok [] ∧
    (get_current_price [] "BTC/USDT").result = Except.ok [] ∧
    (get_volume_data [] "BTC/USDT").result = Except.ok [] ∧
    (get_market_depth [] "BTC/USDT").result = Except.ok [] ∧
    (get_historical_prices [] "BTC/USDT" "1h" 24 1700000000).result = Except.ok [] ∧
    (get_last_traded_price [] "BTC/USDT").result = Except.ok [] :=
  ⟨rfl, rfl, rfl, rfl, rfl, rfl⟩

/-- C4 (amended): when no exchanges are registered, every fetch operation
returns an empty mapping to the caller — no error of any kind is raised, no
connector is invoked, and nothing is logged. -/
theorem C4_empty_registry_returns_empty (s tf : String) (lookback : Nat) (now : Rat) :
    ((get_price_data [] s tf).result = Except.ok [] ∧ (get_price_data [] s tf).calls = []) ∧
    ((get_current_price [] s).result = Except.ok [] ∧ (get_current_price [] s).calls = []) ∧
    ((get_volume_data [] s).result = Except.ok [] ∧ (get_volume_data [] s).calls = []) ∧
    ((get_market_depth [] s).result = Except.ok [] ∧ (get_market_depth [] s).calls = []) ∧
    ((get_historical_prices [] s tf lookback now).result = Except.ok []
      ∧ (get_historical_prices [] s tf lookback now).calls = []) ∧
    ((get_last_traded_price [] s).result = Except.ok []
      ∧ (get_last_traded_price [] s).calls = []) :=
  ⟨⟨rfl, rfl⟩, ⟨rfl, rfl⟩, ⟨rfl, rfl⟩, ⟨rfl, rfl⟩, ⟨rfl, rfl⟩, ⟨rfl, rfl⟩⟩

/-- C6: every OHLCV-returning method (`get_price_data`, `get_volume_data`,
`get_historical_prices`) keys its per-exchange result dict by the
`enumerate` sequence position `0..n-1`.  The first conjunct states it for
the comprehension itself, for arbitrary rows — so the keys are the same
whatever the candles' real `openTime` values are: the candle time axis is
discarded from the keys.  The remaining conjuncts state that every entry
of any successfully returned dict of the three methods has exactly the
keys `0..n-1`. -/
theorem C6_ohlcv_keys_are_positions :
    (∀ rows : List OhlcvRow,
      (candleDict rows).map Prod.fst = List.range rows.length ∧
      (volumeDict rows).map Prod.fst = List.range rows.length) ∧
    (∀ exs s tf m, (get_price_data exs s tf).result = Except.ok m →
      ∀ p ∈ m, p.2.map Prod.fst = List.range p.2.length) ∧
    (∀ exs s m, (get_volume_data exs s).result = Except.ok m →
      ∀ p ∈ m, p.2.map Prod.fst = List.range p.2.length) ∧
    (∀ exs s tf lookback now m,
      (get_historical_prices exs s tf lookback now).result = Except.ok m →
      ∀ p ∈ m, p.2.map Prod.fst = List.range p.2.length) := by
  refine ⟨fun rows => ⟨candleDict_keys rows, volumeDict_keys rows⟩, ?_, ?_, ?_⟩
  · intro exs s tf m hok
    exact get_price_data_go_ok_inv s tf
      (fun p => p.2.map Prod.fst = List.range p.2.length) exs [] [] m
      (fun q _ rows _ => by
        show (candleDict rows).map Prod.fst = List.range (candleDict rows).length
        rw [candleDict_keys, candleDict_length])
      (fun p hp => absurd hp (List.not_mem_nil p)) hok
  · intro exs s m hok
    exact get_volume_data_go_ok_inv s
      (fun p => p.2.map Prod.fst = List.range p.2.length) exs [] [] m
      (fun q _ rows _ => by
        show (volumeDict rows).map Prod.fst = List.range (volumeDict rows).length
        rw [volumeDict_keys, volumeDict_length])
      (fun p hp => absurd hp (List.not_mem_nil p)) hok
  · intro exs s tf lookback now m hok
    exact get_historical_prices_go_ok_inv s tf (histStartTime now lookback)
      (fun p => p.2.map Prod.fst = List.range p.2.length) exs [] [] m
      (fun q _ rows _ => by
        show (candleDict rows).map Prod.fst = List.range (candleDict rows).length
        rw [candleDict_keys, candleDict_length])
      (fun p hp => absurd hp (List.not_mem_nil p)) hok

/-- C6 witness: a concrete two-candle fetch returns the dict keyed 0, 1. -/
theorem C6_witness :
    ((get_price_data [("binance", exOkA)] "BTC/USDT" "1h").result
        = Except.ok [("binance", candleDict [rowA, rowB])]) ∧
    (candleDict [rowA, rowB]).map Prod.fst = [0, 1] := by
  refine ⟨rfl, ?_⟩
  have h := C6_ohlcv_keys_are_positions.2.1 [("binance", exOkA)] "BTC/USDT" "1h"
      [("binance", candleDict [rowA, rowB])] rfl ("binance", candleDict [rowA, rowB]) (by simp)
  have h2 : (candleDict [rowA, rowB]).map Prod.fst
      = List.range (candleDict [rowA, rowB]).length := h
  rw [h2]
  rfl

/-- C2: for each request independently — whenever the request returns a
mapping (which, in this code, happens exactly when every exchange's call
of that request succeeded), the mapping contains exactly one entry per
registered exchange: its key list is precisely the registered names in
registration order, so each registered name appears exactly once (here
always as a success payload; the code has no failure records) and no name
is absent or duplicated.  The two cited methods, `get_price_data` and
`get_market_depth`, are covered by separate conjuncts, each with only its
own request's success as hypothesis: one family of calls failing on a
registry does not exclude the other family's requests. -/
theorem C2_exactly_one_entry_per_request :
    (∀ (exs : List (String × Exchange)) (s tf : String)
        (mpd : List (String × List (Nat × Candle))),
      (exs.map Prod.fst).Nodup →
      (get_price_data exs s tf).result = Except.ok mpd →
      mpd.map Prod.fst = exs.map Prod.fst ∧
        ∀ n ∈ exs.map Prod.fst, (mpd.map Prod.fst).count n = 1) ∧
    (∀ (exs : List (String × Exchange)) (s : String)
        (mmd : List (String × OrderBookOut)),
      (exs.map Prod.fst).Nodup →
      (get_market_depth exs s).result = Except.ok mmd →
      mmd.map Prod.fst = exs.map Prod.fst ∧
        ∀ n ∈ exs.map Prod.fst, (mmd.map Prod.fst).count n = 1) := by
  constructor
  · intro exs s tf mpd hnd h1
    have k1 := get_price_data_go_ok_keys s tf exs [] [] mpd (by simpa using hnd) h1
    simp only [List.map_nil, List.nil_append] at k1
    refine ⟨k1, fun n hn => ?_⟩
    rw [k1]
    exact List.count_eq_one_of_mem hnd hn
  · intro exs s mmd hnd h2
    have k2 := get_market_depth_go_ok_keys s exs [] [] mmd (by simpa using hnd) h2
    simp only [List.map_nil, List.nil_append] at k2
    refine ⟨k2, fun n hn => ?_⟩
    rw [k2]
    exact List.count_eq_one_of_mem hnd hn

/-- C2 witness: the price-data conjunct is instantiated on a registry
whose order-book calls would fail (so its hypothesis is independent of the
other family), and the market-depth conjunct on a healthy registry; both
returned dicts have exactly the registered names as keys. -/
theorem C2_witness :
    ((([("binance", exOkA), ("kucoin", exBookFail)]
        : List (String × Exchange)).map Prod.fst).Nodup) ∧
    ((get_price_data [("binance", exOkA), ("kucoin", exBookFail)] "BTC/USDT" "1h").result
        = Except.ok [("binance", candleDict [rowA, rowB]), ("kucoin", candleDict [rowA])]) ∧
    ([("binance", candleDict [rowA, rowB]), ("kucoin", candleDict [rowA])].map Prod.fst
        = ([("binance", exOkA), ("kucoin", exBookFail)]
            : List (String × Exchange)).map Prod.fst) ∧
    ((get_market_depth [("binance", exOkA), ("kucoin", exOkB)] "BTC/USDT").result
        = Except.ok [("binance", ⟨[(3, 1), (2, 1)], [(4, 1), (5, 1)]⟩),
                     ("kucoin", ⟨[(9, 1), (8, 1)], [(10, 1), (11, 1)]⟩)]) ∧
    ([("binance", (⟨[(3, 1), (2, 1)], [(4, 1), (5, 1)]⟩ : OrderBookOut)),
      ("kucoin", ⟨[(9, 1), (8, 1)], [(10, 1), (11, 1)]⟩)].map Prod.fst
        = ([("binance", exOkA), ("kucoin", exOkB)]
            : List (String × Exchange)).map Prod.fst) := by
  refine ⟨by decide, rfl, ?_, rfl, ?_⟩
  · exact (C2_exactly_one_entry_per_request.1 [("binance", exOkA), ("kucoin", exBookFail)]
      "BTC/USDT" "1h"
      [("binance", candleDict [rowA, rowB]), ("kucoin", candleDict [rowA])]
      (by decide) rfl).1
  · exact (C2_exactly_one_entry_per_request.2 [("binance", exOkA), ("kucoin", exOkB)]
      "BTC/USDT"
      [("binance", ⟨[(3, 1), (2, 1)], [(4, 1), (5, 1)]⟩),
       ("kucoin", ⟨[(9, 1), (8, 1)], [(10, 1), (11, 1)]⟩)]
      (by decide) rfl).1

/-! Error-propagation lemmas: the first failing exchange aborts the whole
request with its exception; no partial mapping is returned. -/

theorem get_price_data_go_error (s tf : String) (pre : List (String × Exchange)) :
    ∀ (n : String) (ex : Exchange) (post : List (String × Exchange)) (e : PyErr)
      (acc : List (String × List (Nat × Candle))) (calls : List FetchCall),
      (∀ q ∈ pre, ∃ rows, q.2.fetch_ohlcv s tf Option.none = Except.ok rows) →
      ex.fetch_ohlcv s tf Option.none = Except.error e →
      (get_price_data_go s tf (pre ++ (n, ex) :: post) acc calls).result = Except.error e := by
  induction pre with
  | nil =>
    intro n ex post e acc calls _ hfail
    simp [get_price_data_go, hfail]
  | cons q pre ih =>
    intro n ex post e acc calls hpre hfail
    obtain ⟨qn, qex⟩ := q
    obtain ⟨rows, hrows⟩ := hpre (qn, qex) (List.mem_cons_self _ _)
    have hrows2 : qex.fetch_ohlcv s tf Option.none = Except.ok rows := hrows
    simp only [List.cons_append, get_price_data_go, hrows2]
    exact ih n ex post e _ _ (fun q2 hq2 => hpre q2 (List.mem_cons_of_mem _ hq2)) hfail

theorem get_current_price_go_fail (s : String) (pre : List (String × Exchange)) :
    ∀ (n : String) (ex : Exchange) (post : List (String × Exchange)) (e : PyErr)
      (acc : List (String × Rat)) (calls : List FetchCall),
      (∀ q ∈ pre, ∃ t r, q.2.fetch_ticker s = Except.ok t ∧ pyFloat t.bid = Except.ok r) →
      (ex.fetch_ticker s = Except.error e ∨
        ∃ t, ex.fetch_ticker s = Except.ok t ∧ pyFloat t.bid = Except.error e) →
      (get_current_price_go s (pre ++ (n, ex) :: post) acc calls).result = Except.error e ∧
      (get_current_price_go s (pre ++ (n, ex) :: post) acc calls).log
        = [LogEvent.fetchFailed "current price" e] := by
  induction pre with
  | nil =>
    intro n ex post e acc calls _ hfail
    rcases hfail with hfail | ⟨t, ht, hconv⟩
    · simp [get_current_price_go, hfail]
    · simp [get_current_price_go, ht, hconv]
  | cons q pre ih =>
    intro n ex post e acc calls hpre hfail
    obtain ⟨qn, qex⟩ := q
    obtain ⟨t, r, ht, hr⟩ := hpre (qn, qex) (List.mem_cons_self _ _)
    have ht2 : qex.fetch_ticker s = Except.ok t := ht
    simp only [List.cons_append, get_current_price_go, ht2, hr]
    exact ih n ex post e _ _ (fun q2 hq2 => hpre q2 (List.mem_cons_of_mem _ hq2)) hfail

theorem get_last_traded_price_go_fail (s : String) (pre : List (String × Exchange)) :
    ∀ (n : String) (ex : Exchange) (post : List (String × Exchange)) (e : PyErr)
      (acc : List (String × Rat)) (calls : List FetchCall),
      (∀ q ∈ pre, ∃ t r, q.2.fetch_ticker s = Except.ok t ∧ pyFloat t.last = Except.ok r) →
      (ex.fetch_ticker s = Except.error e ∨
        ∃ t, ex.fetch_ticker s = Except.ok t ∧ pyFloat t.last = Except.error e) →
      (get_last_traded_price_go s (pre ++ (n, ex) :: post) acc calls).result = Except.error e ∧
      (get_last_traded_price_go s (pre ++ (n, ex) :: post) acc calls).log
        = [LogEvent.fetchFailed "last traded price" e] := by
  induction pre with
  | nil =>
    intro n ex post e acc calls _ hfail
    rcases hfail with hfail | ⟨t, ht, hconv⟩
    · simp [get_last_traded_price_go, hfail]
    · simp [get_last_traded_price_go, ht, hconv]
  | cons q pre ih =>
    intro n ex post e acc calls hpre hfail
    obtain ⟨qn, qex⟩ := q
    obtain ⟨t, r, ht, hr⟩ := hpre (qn, qex) (List.mem_cons_self _ _)
    have ht2 : qex.fetch_ticker s = Except.ok t := ht
    simp only [List.cons_append, get_last_traded_price_go, ht2, hr]
    exact ih n ex post e _ _ (fun q2 hq2 => hpre q2 (List.mem_cons_of_mem _ hq2)) hfail

/-- C1 counterexample: with two registered exchanges where binance's
network call raises `ccxt.BaseError` and kucoin is healthy, the ticker,
OHLCV and order-book fetches all propagate binance's failure to the caller
as an exception: the result is an error, no failure record is produced,
and kucoin's successful data is not returned. -/
theorem C1_counterexample :
    (get_price_data [("binance", exNetFail), ("kucoin", exOkB)] "BTC/USDT" "1h").result
        = Except.error (PyErr.ccxtBase "NetworkError") ∧
    (get_current_price [("binance", exNetFail), ("kucoin", exOkB)] "BTC/USDT").result
        = Except.error (PyErr.ccxtBase "NetworkError") ∧
    (get_market_depth [("binance", exNetFail), ("kucoin", exOkB)] "BTC/USDT").result
        = Except.error (PyErr.ccxtBase "NetworkError") :=
  ⟨rfl, rfl, rfl⟩

/-- C1 (amended): a network or API failure of one exchange's call is
re-raised to the caller as an exception, aborting the whole request: when
every exchange before the failing one succeeds, the method's result is
exactly that exchange's error — no per-exchange failure record is produced
and no other exchange's results are returned.  Stated for `get_price_data`
(OHLCV) and `get_current_price` (ticker). -/
theorem C1_one_failure_aborts_request :
    (∀ (pre : List (String × Exchange)) (n : String) (ex : Exchange)
        (post : List (String × Exchange)) (s tf : String) (e : PyErr),
      (∀ q ∈ pre, ∃ rows, q.2.fetch_ohlcv s tf Option.none = Except.ok rows) →
      ex.fetch_ohlcv s tf Option.none = Except.error e →
      (get_price_data (pre ++ (n, ex) :: post) s tf).result = Except.error e) ∧
    (∀ (pre : List (String × Exchange)) (n : String) (ex : Exchange)
        (post : List (String × Exchange)) (s : String) (e : PyErr),
      (∀ q ∈ pre, ∃ t r, q.2.fetch_ticker s = Except.ok t ∧ pyFloat t.bid = Except.ok r) →
      ex.fetch_ticker s = Except.error e →
      (get_current_price (pre ++ (n, ex) :: post) s).result = Except.error e) := by
  constructor
  · intro pre n ex post s tf e hpre hfail
    exact get_price_data_go_error s tf pre n ex post e [] [] hpre hfail
  · intro pre n ex post s e hpre hfail
    exact (get_current_price_go_fail s pre n ex post e [] [] hpre (Or.inl hfail)).1

/-- C1 witness: the amended statement applied at a concrete registry with
a failing first exchange and a healthy second one. -/
theorem C1_witness :
    (exNetFail.fetch_ohlcv "BTC/USDT" "1h" Option.none
        = Except.error (PyErr.ccxtBase "NetworkError")) ∧
    (get_price_data [("binance", exNetFail), ("kucoin", exOkB)] "BTC/USDT" "1h").result
        = Except.error (PyErr.ccxtBase "NetworkError") := by
  refine ⟨rfl, ?_⟩
  exact C1_one_failure_aborts_request.1 [] "binance" exNetFail [("kucoin", exOkB)]
    "BTC/USDT" "1h" (PyErr.ccxtBase "NetworkError")
    (fun q hq => absurd hq (List.not_mem_nil q)) rfl

/-- C3 counterexample: with a symbol listed on no exchange, the request
does not fail before dispatch: the first (and only) registered connector
is invoked with the unvalidated symbol — the call trace is nonempty — and
the request fails with the connector's own library error, not with any
pre-dispatch `InvalidRequestError` (no such validation exists in the
code). -/
theorem C3_counterexample :
    (get_price_data [("binance", exNoSuchSymbol)] "INVALID" "1h").calls
        = [FetchCall.ohlcv "binance" "INVALID" "1h" Option.none] ∧
    (get_price_data [("binance", exNoSuchSymbol)] "INVALID" "1h").result
        = Except.error (PyErr.ccxtBase "BadSymbol INVALID") :=
  ⟨rfl, rfl⟩

/-- C3 (amended): no symbol validation happens before dispatch.  For any
symbol — including one absent from every exchange's market list — the
first registered connector is always invoked with that symbol, and when
its fetch raises, that library error is what the caller receives. -/
theorem C3_no_validation_before_dispatch (n : String) (ex : Exchange)
    (rest : List (String × Exchange)) (s tf : String) (e : PyErr)
    (h : ex.fetch_ohlcv s tf Option.none = Except.error e) :
    (get_price_data ((n, ex) :: rest) s tf).calls = [FetchCall.ohlcv n s tf Option.none] ∧
    (get_price_data ((n, ex) :: rest) s tf).result = Except.error e := by
  constructor <;> simp [get_price_data, get_price_data_go, h]

/-- C3 witness: the amended statement applied at a concrete registry and
an invalid symbol. -/
theorem C3_witness :
    (exNoSuchSymbol.fetch_ohlcv "INVALID" "1h" Option.none
        = Except.error (PyErr.ccxtBase "BadSymbol INVALID")) ∧
    (get_price_data [("binance", exNoSuchSymbol)] "INVALID" "1h").calls
        = [FetchCall.ohlcv "binance" "INVALID" "1h" Option.none] := by
  refine ⟨rfl, ?_⟩
  exact (C3_no_validation_before_dispatch "binance" exNoSuchSymbol [] "INVALID" "1h"
    (PyErr.ccxtBase "BadSymbol INVALID") rfl).1

/-! Lemmas for the sequential cost model and the call traces. -/

theorem get_current_price_elapsed_sum (s : String) :
    ∀ exs : List (String × Exchange),
      (∀ q ∈ exs, ∃ t r, q.2.fetch_ticker s = Except.ok t ∧ pyFloat t.bid = Except.ok r) →
      get_current_price_elapsed s exs = (exs.map (fun q => q.2.ticker_time s)).sum := by
  intro exs
  induction exs with
  | nil => intro _; simp [get_current_price_elapsed]
  | cons q rest ih =>
    intro h
    obtain ⟨qn, qex⟩ := q
    obtain ⟨t, r, ht, hr⟩ := h (qn, qex) (List.mem_cons_self _ _)
    have ht2 : qex.fetch_ticker s = Except.ok t := ht
    have hr2 : pyFloat t.bid = Except.ok r := hr
    simp only [get_current_price_elapsed, ht2, hr2, List.map_cons, List.sum_cons]
    rw [ih (fun q2 hq2 => h q2 (List.mem_cons_of_mem _ hq2))]

theorem get_current_price_go_all_ok (s : String) :
    ∀ (exs : List (String × Exchange)) (acc : List (String × Rat)) (calls : List FetchCall),
      (∀ q ∈ exs, ∃ t r, q.2.fetch_ticker s = Except.ok t ∧ pyFloat t.bid = Except.ok r) →
      ∃ m, (get_current_price_go s exs acc calls).result = Except.ok m := by
  intro exs
  induction exs with
  | nil => intro acc calls _; exact ⟨acc, rfl⟩
  | cons q rest ih =>
    intro acc calls h
    obtain ⟨qn, qex⟩ := q
    obtain ⟨t, r, ht, hr⟩ := h (qn, qex) (List.mem_cons_self _ _)
    have ht2 : qex.fetch_ticker s = Except.ok t := ht
    have hr2 : pyFloat t.bid = Except.ok r := hr
    simp only [get_current_price_go, ht2, hr2]
    exact ih _ _ (fun q2 hq2 => h q2 (List.mem_cons_of_mem _ hq2))

/-- C5 counterexample: two registered exchanges, one whose successful
`fetch_ticker` takes 15000 ms and one that takes 100 ms.  The code has no
timeout and no concurrency: the request completes only after both calls
run to completion, its duration is the sum 15100 ms (≈ 15.1 s, not ≈ 5 s),
and the slow exchange appears in the result as a *success* — no
`ExchangeTimeoutError` failure record exists (the result type has no
failure records at all). -/
theorem C5_counterexample :
    (get_current_price [("slow", exSlowTicker), ("fast", exFastTicker)] "BTC/USDT").result
        = Except.ok [("slow", 50000), ("fast", 50010)] ∧
    get_current_price_elapsed "BTC/USDT" [("slow", exSlowTicker), ("fast", exFastTicker)]
        = 15100 := by
  refine ⟨rfl, ?_⟩
  norm_num [get_current_price_elapsed, exSlowTicker, exFastTicker, pyFloat]

/-- C5 (amended): dispatch is strictly sequential and unbounded — each
registered connector is called one at a time, every call runs to
completion, the request's duration is the sum of all per-exchange call
durations, and when all calls succeed the result maps every registered
exchange to a success (there is no timeout mechanism and no failure
record). -/
theorem C5_sequential_unbounded_dispatch (exs : List (String × Exchange)) (s : String)
    (hnd : (exs.map Prod.fst).Nodup)
    (h : ∀ q ∈ exs, ∃ t r, q.2.fetch_ticker s = Except.ok t ∧ pyFloat t.bid = Except.ok r) :
    get_current_price_elapsed s exs = (exs.map (fun q => q.2.ticker_time s)).sum ∧
    ∃ m, (get_current_price exs s).result = Except.ok m ∧
      m.map Prod.fst = exs.map Prod.fst := by
  refine ⟨get_current_price_elapsed_sum s exs h, ?_⟩
  obtain ⟨m, hm⟩ := get_current_price_go_all_ok s exs [] [] h
  have hk := get_current_price_go_ok_keys s exs [] [] m (by simpa using hnd) hm
  simp only [List.map_nil, List.nil_append] at hk
  exact ⟨m, hm, hk⟩

/-- C5 witness: the amended statement applied to the concrete slow/fast
pair of exchanges. -/
theorem C5_witness :
    ((([("slow", exSlowTicker), ("fast", exFastTicker)]
        : List (String × Exchange)).map Prod.fst).Nodup) ∧
    get_current_price_elapsed "BTC/USDT" [("slow", exSlowTicker), ("fast", exFastTicker)]
      = (([("slow", exSlowTicker), ("fast", exFastTicker)]
          : List (String × Exchange)).map (fun q => q.2.ticker_time "BTC/USDT")).sum := by
  refine ⟨by decide, ?_⟩
  exact (C5_sequential_unbounded_dispatch [("slow", exSlowTicker), ("fast", exFastTicker)]
    "BTC/USDT" (by decide)
    (fun q hq => by
      rcases List.mem_cons.mp hq with h | h
      · subst h
        exact ⟨⟨PyNum.num 50000, PyNum.num 50000⟩, 50000, rfl, rfl⟩
      · rcases List.mem_cons.mp h with h2 | h2
        · subst h2
          exact ⟨⟨PyNum.num 50010, PyNum.num 50010⟩, 50010, rfl, rfl⟩
        · exact absurd h2 (List.not_mem_nil q))).1

theorem get_historical_prices_go_calls (s tf : String) (st : Rat) :
    ∀ (exs : List (String × Exchange)) (acc : List (String × List (Nat × Candle)))
      (calls : List FetchCall),
      (∀ c ∈ calls, ∃ name, c = FetchCall.ohlcv name s tf (some st)) →
      ∀ c ∈ (get_historical_prices_go s tf st exs acc calls).calls,
        ∃ name, c = FetchCall.ohlcv name s tf (some st) := by
  intro exs
  induction exs with
  | nil => intro acc calls h; exact h
  | cons q rest ih =>
    intro acc calls h c hc
    obtain ⟨qn, qex⟩ := q
    have hext : ∀ c2 ∈ calls ++ [FetchCall.ohlcv qn s tf (some st)],
        ∃ name, c2 = FetchCall.ohlcv name s tf (some st) := by
      intro c2 hc2
      rcases List.mem_append.mp hc2 with h2 | h2
      · exact h c2 h2
      · exact ⟨qn, List.mem_singleton.mp h2⟩
    cases hfetch : qex.fetch_ohlcv s tf (some st) with
    | error e =>
      simp only [get_historical_prices_go, hfetch] at hc
      exact hext c hc
    | ok rows =>
      simp only [get_historical_prices_go, hfetch] at hc
      exact ih _ _ hext c hc

theorem get_historical_prices_go_calls_all_ok (s tf : String) (st : Rat) :
    ∀ (exs : List (String × Exchange)) (acc : List (String × List (Nat × Candle)))
      (calls : List FetchCall),
      (∀ q ∈ exs, ∃ rows, q.2.fetch_ohlcv s tf (some st) = Except.ok rows) →
      (get_historical_prices_go s tf st exs acc calls).calls
        = calls ++ exs.map (fun q => FetchCall.ohlcv q.1 s tf (some st)) := by
  intro exs
  induction exs with
  | nil => intro acc calls _; simp [get_historical_prices_go]
  | cons q rest ih =>
    intro acc calls h
    obtain ⟨qn, qex⟩ := q
    obtain ⟨rows, hrows⟩ := h (qn, qex) (List.mem_cons_self _ _)
    have hrows2 : qex.fetch_ohlcv s tf (some st) = Except.ok rows := hrows
    simp only [get_historical_prices_go, hrows2]
    rw [ih _ _ (fun q2 hq2 => h q2 (List.mem_cons_of_mem _ hq2))]
    simp [List.append_assoc]

/-- C7: `get_historical_prices` computes the since-value as the current
Unix time in seconds minus `lookback * 60 * 60` (so a value in seconds),
and passes that one value, unchanged, in every connector call it
dispatches, for every exchange and whatever the timeframe:
every recorded call carries exactly `some (histStartTime now lookback)`,
and when all fetches succeed there is exactly one such call per registered
exchange. -/
theorem C7_since_in_seconds_same_for_all (exs : List (String × Exchange)) (s tf : String)
    (lookback : Nat) (now : Rat) :
    histStartTime now lookback = now - 3600 * (lookback : Rat) ∧
    (∀ c ∈ (get_historical_prices exs s tf lookback now).calls,
      ∃ name, c = FetchCall.ohlcv name s tf (some (histStartTime now lookback))) ∧
    ((∀ q ∈ exs, ∃ rows,
        q.2.fetch_ohlcv s tf (some (histStartTime now lookback)) = Except.ok rows) →
      (get_historical_prices exs s tf lookback now).calls
        = exs.map (fun q => FetchCall.ohlcv q.1 s tf (some (histStartTime now lookback)))) := by
  refine ⟨?_, ?_, ?_⟩
  · unfold histStartTime
    push_cast
    ring
  · exact get_historical_prices_go_calls s tf _ exs [] []
      (fun c hc => absurd hc (List.not_mem_nil c))
  · intro h
    simpa using get_historical_prices_go_calls_all_ok s tf _ exs [] [] h

/-- C7 witness: a concrete request with `lookback = 24` and a fixed clock;
the single dispatched call carries the computed since-value, and the
theorem instantiates on it. -/
theorem C7_witness :
    (FetchCall.ohlcv "binance" "BTC/USDT" "1h" (some (histStartTime 1700000000 24))
        ∈ (get_historical_prices [("binance", exOkA)] "BTC/USDT" "1h" 24 1700000000).calls) ∧
    (∃ name, FetchCall.ohlcv "binance" "BTC/USDT" "1h" (some (histStartTime 1700000000 24))
        = FetchCall.ohlcv name "BTC/USDT" "1h" (some (histStartTime 1700000000 24))) := by
  have hcalls : (get_historical_prices [("binance", exOkA)] "BTC/USDT" "1h" 24 1700000000).calls
      = [FetchCall.ohlcv "binance" "BTC/USDT" "1h" (some (histStartTime 1700000000 24))] := rfl
  have hmem : FetchCall.ohlcv "binance" "BTC/USDT" "1h" (some (histStartTime 1700000000 24))
      ∈ (get_historical_prices [("binance", exOkA)] "BTC/USDT" "1h" 24 1700000000).calls := by
    rw [hcalls]
    exact List.mem_singleton_self _
  exact ⟨hmem,
    (C7_since_in_seconds_same_for_all [("binance", exOkA)] "BTC/USDT" "1h" 24 1700000000).2.1
      _ hmem⟩

/-- C8 counterexample: a connector whose raw response has ascending bids
and descending asks; `get_market_depth` copies both lists verbatim into
the returned mapping, so the returned bids are not sorted descending and
the returned asks are not sorted ascending.  The code enforces no order
at all. -/
theorem C8_counterexample :
    (get_market_depth [("binance", exUnsortedBook)] "BTC/USDT").result
        = Except.ok [("binance", ⟨[(1, 1), (2, 1)], [(5, 1), (4, 1)]⟩)] ∧
    sortedDescB [((1 : Rat), (1 : Rat)), (2, 1)] = false ∧
    sortedAscB [((5 : Rat), (1 : Rat)), (4, 1)] = false := by
  refine ⟨rfl, by decide, by decide⟩

/-- C8 (amended): `get_market_depth` returns each connector's `bids` and
`asks` lists verbatim, without sorting or validating them; the returned
books have bids sorted descending and asks ascending precisely when every
connector's raw response already does (which the standard exchange
convention provides, but the code does not enforce). -/
theorem C8_books_passthrough (exs : List (String × Exchange)) (s : String)
    (m : List (String × OrderBookOut))
    (h : ∀ q ∈ exs, ∀ ob, q.2.fetch_order_book s = Except.ok ob →
      sortedDescB ob.bids = true ∧ sortedAscB ob.asks = true)
    (hok : (get_market_depth exs s).result = Except.ok m) :
    ∀ p ∈ m, sortedDescB p.2.bids = true ∧ sortedAscB p.2.asks = true :=
  get_market_depth_go_ok_inv s
    (fun p => sortedDescB p.2.bids = true ∧ sortedAscB p.2.asks = true) exs [] [] m
    (fun q hq ob hob => h q hq ob hob)
    (fun p hp => absurd hp (List.not_mem_nil p)) hok

/-- C8 witness: a connector whose raw book follows the convention yields a
returned book that does too. -/
theorem C8_witness :
    ((get_market_depth [("binance", exOkA)] "BTC/USDT").result
        = Except.ok [("binance", ⟨[(3, 1), (2, 1)], [(4, 1), (5, 1)]⟩)]) ∧
    (sortedDescB [((3 : Rat), (1 : Rat)), (2, 1)] = true ∧
      sortedAscB [((4 : Rat), (1 : Rat)), (5, 1)] = true) := by
  refine ⟨rfl, ?_⟩
  exact C8_books_passthrough [("binance", exOkA)] "BTC/USDT"
    [("binance", ⟨[(3, 1), (2, 1)], [(4, 1), (5, 1)]⟩)]
    (fun q hq ob hob => by
      have hq2 : q = ("binance", exOkA) := List.mem_singleton.mp hq
      subst hq2
      have hob2 : Except.ok (⟨[(3, 1), (2, 1)], [(4, 1), (5, 1)], Option.none⟩ : OrderBookRaw)
          = Except.ok ob := hob
      injection hob2 with hob3
      subst hob3
      exact ⟨by decide, by decide⟩)
    rfl ("binance", ⟨[(3, 1), (2, 1)], [(4, 1), (5, 1)]⟩) (List.mem_singleton_self _)

/-! Lemmas about the initialization loop. -/

theorem init_exchanges_go_append (env : CcxtEnv) (cfg : Config) :
    ∀ (xs ys : List String) (acc : List (String × Exchange)) (logs : List LogEvent),
      init_exchanges_go env cfg (xs ++ ys) acc logs
        = init_exchanges_go env cfg ys (init_exchanges_go env cfg xs acc logs).1
            (init_exchanges_go env cfg xs acc logs).2 := by
  intro xs
  induction xs with
  | nil => intro ys acc logs; rfl
  | cons x xs ih =>
    intro ys acc logs
    cases h : initOutcome env cfg x with
    | registered ex =>
      simp only [List.cons_append, init_exchanges_go, h]
      exact ih ys _ _
    | unsupported =>
      simp only [List.cons_append, init_exchanges_go, h]
      exact ih ys _ _
    | failed e =>
      simp only [List.cons_append, init_exchanges_go, h]
      exact ih ys _ _

theorem init_exchanges_go_all_ok (env : CcxtEnv) (cfg : Config) :
    ∀ (names : List String) (acc : List (String × Exchange)) (logs : List LogEvent),
      (∀ n ∈ names, ∃ ex, initOutcome env cfg n = InitOutcome.registered ex) →
      ((acc.map Prod.fst ++ names).Nodup) →
      (init_exchanges_go env cfg names acc logs).1.map Prod.fst = acc.map Prod.fst ++ names ∧
      (init_exchanges_go env cfg names acc logs).2 = logs := by
  intro names
  induction names with
  | nil => intro acc logs _ _; exact ⟨by simp [init_exchanges_go], rfl⟩
  | cons n names ih =>
    intro acc logs h hnd
    obtain ⟨ex, hex⟩ := h n (List.mem_cons_self _ _)
    simp only [init_exchanges_go, hex]
    have hd := List.disjoint_of_nodup_append hnd
    have hnotin : n ∉ acc.map Prod.fst := fun hmem => hd hmem (by simp)
    rw [dictInsert_absent acc n ex hnotin]
    have hnd2 : (((acc ++ [(n, ex)]).map Prod.fst) ++ names).Nodup := by
      simpa [List.append_assoc] using hnd
    obtain ⟨h1, h2⟩ := ih (acc ++ [(n, ex)]) logs
      (fun n2 hn2 => h n2 (List.mem_cons_of_mem _ hn2)) hnd2
    refine ⟨?_, h2⟩
    rw [h1]
    simp [List.append_assoc]

/-- C9: one misconfigured exchange at startup — an unsupported name, or any
exception while reading its credentials, constructing it, or loading its
markets — is logged and skipped, and only it: when every other configured
name initializes successfully, the registry afterwards holds exactly the
other N−1 connectors, the bad exchange is absent, and the log records the
skip.  The constructor itself cannot raise on a per-exchange failure: the
embedding of `_initialize_exchanges` is total (every exception is caught
inside the loop), so it returns a registry for every input. -/
theorem C9_misconfigured_exchange_skipped (env : CcxtEnv) (cfg : Config)
    (pre post : List String) (bad : String)
    (hcfg : cfg.exchanges = pre ++ bad :: post)
    (hnd : (pre ++ bad :: post).Nodup)
    (hbad : initOutcome env cfg bad = InitOutcome.unsupported ∨
      ∃ e, initOutcome env cfg bad = InitOutcome.failed e)
    (hok : ∀ n ∈ pre ++ post, ∃ ex, initOutcome env cfg n = InitOutcome.registered ex) :
    (init_exchanges env cfg).1.map Prod.fst = pre ++ post ∧
    bad ∉ (init_exchanges env cfg).1.map Prod.fst ∧
    (LogEvent.unsupportedExchange bad ∈ (init_exchanges env cfg).2 ∨
      ∃ e, LogEvent.initFailed bad e ∈ (init_exchanges env cfg).2) := by
  have hpre : ∀ n ∈ pre, ∃ ex, initOutcome env cfg n = InitOutcome.registered ex :=
    fun n hn => hok n (List.mem_append_left _ hn)
  have hpost : ∀ n ∈ post, ∃ ex, initOutcome env cfg n = InitOutcome.registered ex :=
    fun n hn => hok n (List.mem_append_right _ hn)
  have hmid := List.nodup_middle.mp hnd
  obtain ⟨hbadnotin, hppnodup⟩ := List.nodup_cons.mp hmid
  have hprenodup : pre.Nodup := hnd.of_append_left
  have hres : (init_exchanges env cfg).1.map Prod.fst = pre ++ post ∧
      ((init_exchanges env cfg).2 = [LogEvent.unsupportedExchange bad] ∨
        ∃ e, (init_exchanges env cfg).2 = [LogEvent.initFailed bad e]) := by
    unfold init_exchanges
    rw [hcfg, init_exchanges_go_append env cfg pre (bad :: post) [] []]
    obtain ⟨hkeys1, hlogs1⟩ := init_exchanges_go_all_ok env cfg pre [] []
      hpre (by simpa using hprenodup)
    simp only [List.map_nil, List.nil_append] at hkeys1
    have hnd2 : ((init_exchanges_go env cfg pre [] []).1.map Prod.fst ++ post).Nodup := by
      rw [hkeys1]
      exact hppnodup
    rcases hbad with hbad | ⟨e, hbad⟩
    · simp only [init_exchanges_go, hbad]
      obtain ⟨hkeys2, hlogs2⟩ := init_exchanges_go_all_ok env cfg post
        (init_exchanges_go env cfg pre [] []).1
        ((init_exchanges_go env cfg pre [] []).2 ++ [LogEvent.unsupportedExchange bad])
        hpost hnd2
      rw [hkeys2, hkeys1, hlogs2, hlogs1]
      exact ⟨rfl, Or.inl rfl⟩
    · simp only [init_exchanges_go, hbad]
      obtain ⟨hkeys2, hlogs2⟩ := init_exchanges_go_all_ok env cfg post
        (init_exchanges_go env cfg pre [] []).1
        ((init_exchanges_go env cfg pre [] []).2 ++ [LogEvent.initFailed bad e])
        hpost hnd2
      rw [hkeys2, hkeys1, hlogs2, hlogs1]
      exact ⟨rfl, Or.inr ⟨e, rfl⟩⟩
  refine ⟨hres.1, ?_, ?_⟩
  · rw [hres.1]
    exact hbadnotin
  · rcases hres.2 with h2 | ⟨e, h2⟩
    · rw [h2]
      exact Or.inl (List.mem_singleton_self _)
    · rw [h2]
      exact Or.inr ⟨e, List.mem_singleton_self _⟩

/-- C9 witness: three configured names where the middle one is not a
supported exchange; after construction exactly the two supported ones are
registered and the bogus one is absent. -/
theorem C9_witness :
    (cfgW.exchanges = ["binance"] ++ "bogus" :: ["kucoin"]) ∧
    ((init_exchanges envW cfgW).1.map Prod.fst = ["binance"] ++ ["kucoin"]) ∧
    ("bogus" ∉ (init_exchanges envW cfgW).1.map Prod.fst) := by
  have h := C9_misconfigured_exchange_skipped envW cfgW ["binance"] ["kucoin"] "bogus"
    rfl (by decide) (Or.inl rfl)
    (fun n hn => by
      have hn2 : n = "binance" ∨ n = "kucoin" := by simpa using hn
      rcases hn2 with rfl | rfl
      · exact ⟨exOkA, rfl⟩
      · exact ⟨exOkB, rfl⟩)
  exact ⟨rfl, h.1, h.2.1⟩

/-! Extraction lemmas: every entry of a successfully returned price dict is
the float of the corresponding ticker field. -/

theorem get_current_price_go_ok_mem (s : String) :
    ∀ (exs : List (String × Exchange)) (acc : List (String × Rat)) (calls : List FetchCall)
      (m : List (String × Rat)),
      ((acc.map Prod.fst ++ exs.map Prod.fst).Nodup) →
      (get_current_price_go s exs acc calls).result = Except.ok m →
      (∀ q ∈ acc, q ∈ m) ∧
      ∀ q ∈ exs, ∃ t r, q.2.fetch_ticker s = Except.ok t ∧ pyFloat t.bid = Except.ok r
        ∧ (q.1, r) ∈ m := by
  intro exs
  induction exs with
  | nil =>
    intro acc calls m _ hok
    simp only [get_current_price_go, Except.ok.injEq] at hok
    subst hok
    exact ⟨fun q hq => hq, fun q hq => absurd hq (List.not_mem_nil q)⟩
  | cons q rest ih =>
    intro acc calls m hnd hok
    obtain ⟨name, ex⟩ := q
    cases hfetch : ex.fetch_ticker s with
    | error e => simp [get_current_price_go, hfetch] at hok
    | ok t =>
      cases hconv : pyFloat t.bid with
      | error e => simp [get_current_price_go, hfetch, hconv] at hok
      | ok r =>
        simp only [get_current_price_go, hfetch, hconv] at hok
        have hd := List.disjoint_of_nodup_append hnd
        have hnotin : name ∉ acc.map Prod.fst := fun hmem => hd hmem (by simp)
        rw [dictInsert_absent acc name r hnotin] at hok
        have hnd2 : (((acc ++ [(name, r)]).map Prod.fst) ++ rest.map Prod.fst).Nodup := by
          simpa [List.append_assoc] using hnd
        obtain ⟨hacc, hrest⟩ := ih (acc ++ [(name, r)]) _ m hnd2 hok
        refine ⟨fun q2 hq2 => hacc q2 (List.mem_append_left _ hq2), ?_⟩
        intro q2 hq2
        rcases List.mem_cons.mp hq2 with rfl | hq3
        · exact ⟨t, r, hfetch, hconv,
            hacc (name, r) (List.mem_append_right _ (List.mem_singleton_self _))⟩
        · exact hrest q2 hq3

theorem get_last_traded_price_go_ok_mem (s : String) :
    ∀ (exs : List (String × Exchange)) (acc : List (String × Rat)) (calls : List FetchCall)
      (m : List (String × Rat)),
      ((acc.map Prod.fst ++ exs.map Prod.fst).Nodup) →
      (get_last_traded_price_go s exs acc calls).result = Except.ok m →
      (∀ q ∈ acc, q ∈ m) ∧
      ∀ q ∈ exs, ∃ t r, q.2.fetch_ticker s = Except.ok t ∧ pyFloat t.last = Except.ok r
        ∧ (q.1, r) ∈ m := by
  intro exs
  induction exs with
  | nil =>
    intro acc calls m _ hok
    simp only [get_last_traded_price_go, Except.ok.injEq] at hok
    subst hok
    exact ⟨fun q hq => hq, fun q hq => absurd hq (List.not_mem_nil q)⟩
  | cons q rest ih =>
    intro acc calls m hnd hok
    obtain ⟨name, ex⟩ := q
    cases hfetch : ex.fetch_ticker s with
    | error e => simp [get_last_traded_price_go, hfetch] at hok
    | ok t =>
      cases hconv : pyFloat t.last with
      | error e => simp [get_last_traded_price_go, hfetch, hconv] at hok
      | ok r =>
        simp only [get_last_traded_price_go, hfetch, hconv] at hok
        have hd := List.disjoint_of_nodup_append hnd
        have hnotin : name ∉ acc.map Prod.fst := fun hmem => hd hmem (by simp)
        rw [dictInsert_absent acc name r hnotin] at hok
        have hnd2 : (((acc ++ [(name, r)]).map Prod.fst) ++ rest.map Prod.fst).Nodup := by
          simpa [List.append_assoc] using hnd
        obtain ⟨hacc, hrest⟩ := ih (acc ++ [(name, r)]) _ m hnd2 hok
        refine ⟨fun q2 hq2 => hacc q2 (List.mem_append_left _ hq2), ?_⟩
        intro q2 hq2
        rcases List.mem_cons.mp hq2 with rfl | hq3
        · exact ⟨t, r, hfetch, hconv,
            hacc (name, r) (List.mem_append_right _ (List.mem_singleton_self _))⟩
        · exact hrest q2 hq3

/-- C10: `get_current_price` returns, for every registered exchange, the
float of the ticker's `bid` field (the best bid — not the last trade and
not a mid price), while `get_last_traded_price` returns the float of the
`last` field; and when the reached field is `None` or a non-numeric string,
the `float()` conversion error is logged and re-raised to the caller.
(The tail of `get_last_traded_price`'s handler is truncated in the source
file and is modelled from the spec as log-then-re-raise, matching every
other method.) -/
theorem C10_current_is_bid_last_is_last :
    (∀ (exs : List (String × Exchange)) (s : String) (m : List (String × Rat)),
      (exs.map Prod.fst).Nodup → (get_current_price exs s).result = Except.ok m →
      ∀ q ∈ exs, ∃ t r, q.2.fetch_ticker s = Except.ok t ∧ pyFloat t.bid = Except.ok r
        ∧ (q.1, r) ∈ m) ∧
    (∀ (exs : List (String × Exchange)) (s : String) (m : List (String × Rat)),
      (exs.map Prod.fst).Nodup → (get_last_traded_price exs s).result = Except.ok m →
      ∀ q ∈ exs, ∃ t r, q.2.fetch_ticker s = Except.ok t ∧ pyFloat t.last = Except.ok r
        ∧ (q.1, r) ∈ m) ∧
    (∀ (pre : List (String × Exchange)) (n : String) (ex : Exchange)
        (post : List (String × Exchange)) (s : String) (t : Ticker) (e : PyErr),
      (∀ q ∈ pre, ∃ t2 r, q.2.fetch_ticker s = Except.ok t2 ∧ pyFloat t2.bid = Except.ok r) →
      ex.fetch_ticker s = Except.ok t → pyFloat t.bid = Except.error e →
      (get_current_price (pre ++ (n, ex) :: post) s).result = Except.error e ∧
      (get_current_price (pre ++ (n, ex) :: post) s).log
        = [LogEvent.fetchFailed "current price" e]) ∧
    (∀ (pre : List (String × Exchange)) (n : String) (ex : Exchange)
        (post : List (String × Exchange)) (s : String) (t : Ticker) (e : PyErr),
      (∀ q ∈ pre, ∃ t2 r, q.2.fetch_ticker s = Except.ok t2 ∧ pyFloat t2.last = Except.ok r) →
      ex.fetch_ticker s = Except.ok t → pyFloat t.last = Except.error e →
      (get_last_traded_price (pre ++ (n, ex) :: post) s).result = Except.error e ∧
      (get_last_traded_price (pre ++ (n, ex) :: post) s).log
        = [LogEvent.fetchFailed "last traded price" e]) := by
  refine ⟨?_, ?_, ?_, ?_⟩
  · intro exs s m hnd hok
    exact (get_current_price_go_ok_mem s exs [] [] m (by simpa using hnd) hok).2
  · intro exs s m hnd hok
    exact (get_last_traded_price_go_ok_mem s exs [] [] m (by simpa using hnd) hok).2
  · intro pre n ex post s t e hpre ht hconv
    exact get_current_price_go_fail s pre n ex post e [] [] hpre (Or.inr ⟨t, ht, hconv⟩)
  · intro pre n ex post s t e hpre ht hconv
    exact get_last_traded_price_go_fail s pre n ex post e [] [] hpre (Or.inr ⟨t, ht, hconv⟩)

/-- C10 witness: on a healthy exchange the returned current price is the
ticker's bid (50000, not the last price 50005), and an exchange whose bid
is `None` makes the request raise the `float(None)` `TypeError` with the
corresponding log entry. -/
theorem C10_witness :
    ((([("binance", exOkA)] : List (String × Exchange)).map Prod.fst).Nodup) ∧
    ((get_current_price [("binance", exOkA)] "BTC/USDT").result
        = Except.ok [("binance", 50000)]) ∧
    (∃ t r, exOkA.fetch_ticker "BTC/USDT" = Except.ok t ∧ pyFloat t.bid = Except.ok r
        ∧ ("binance", r) ∈ [("binance", (50000 : Rat))]) ∧
    ((get_current_price [("noneBid", exNoneBid)] "BTC/USDT").result
        = Except.error (PyErr.typeError "float of NoneType")) ∧
    ((get_current_price [("noneBid", exNoneBid)] "BTC/USDT").log
        = [LogEvent.fetchFailed "current price" (PyErr.typeError "float of NoneType")]) := by
  refine ⟨by decide, rfl, ?_, ?_, ?_⟩
  · exact C10_current_is_bid_last_is_last.1 [("binance", exOkA)] "BTC/USDT"
      [("binance", 50000)] (by decide) rfl ("binance", exOkA) (List.mem_singleton_self _)
  · exact (C10_current_is_bid_last_is_last.2.2.1 [] "noneBid" exNoneBid [] "BTC/USDT"
      ⟨PyNum.pynone, PyNum.num 7⟩ (PyErr.typeError "float of NoneType")
      (fun q hq => absurd hq (List.not_mem_nil q)) rfl rfl).1
  · exact (C10_current_is_bid_last_is_last.2.2.1 [] "noneBid" exNoneBid [] "BTC/USDT"
      ⟨PyNum.pynone, PyNum.num 7⟩ (PyErr.typeError "float of NoneType")
      (fun q hq => absurd hq (List.not_mem_nil q)) rfl rfl).2
